import Mathlib

/-!
Verification of the expense-request dialogue assistant (`src/app.py`).

The development shallowly embeds the pure core of the program:

* the two regex field extractors `extract_project_info` and `extract_amount`
  (the Python `re` scanning, including leftmost-match and backtracking
  behaviour of the concrete patterns, is translated into explicit scanning
  functions over `List Char`);
* the dialogue state machine `process_request` together with the session
  state it mutates (stage, in-progress request, chat transcript, and the
  request store modelled as the list of inserted rows).

Python floats produced by `float` on the matched decimal literals are
modelled as rationals; Python `None` becomes `Option`; the mutable
`st.session_state` becomes an explicit `AppState` threaded through
`processRequest`.  Assistant message texts are represented by an inductive
`Msg` carrying the data interpolated into the corresponding f-string.
-/

namespace ExpenseApp

/-! ### Characters, case folding, substrings -/

/-- ASCII digit test, matching `\d` of the source regexes on ASCII input. -/
def isDigitCh (c : Char) : Bool := '0' ≤ c && c ≤ '9'

def isUpperCh (c : Char) : Bool := 'A' ≤ c && c ≤ 'Z'

def isLowerCh (c : Char) : Bool := 'a' ≤ c && c ≤ 'z'

def isAlphaCh (c : Char) : Bool := isUpperCh c || isLowerCh c

/-- Word character for the regex `\b` boundary: `[a-zA-Z0-9_]`. -/
def isWordCh (c : Char) : Bool := isAlphaCh c || isDigitCh c || c = '_'

/-- Whitespace for `\s` and for `str.split()` (ASCII part). -/
def isSpaceCh (c : Char) : Bool :=
  c = ' ' || c = '\t' || c = '\n' || c = '\r' || c = '\x0b' || c = '\x0c'

/-- ASCII lower-casing of one character, as `str.lower()` does on ASCII. -/
def lowerCh (c : Char) : Char :=
  if isUpperCh c then Char.ofNat (c.toNat + 32) else c

def lowerL (l : List Char) : List Char := l.map lowerCh

/-- `text.lower()` of the source, on the ASCII fragment. -/
def lowerS (s : String) : String := ⟨lowerL s.data⟩

/-- Does `l` start with the literal pattern `pat`? -/
def startsL : List Char → List Char → Bool
  | [], _ => true
  | _ :: _, [] => false
  | p :: ps, c :: cs => p = c && startsL ps cs

/-- Python `pat in text` substring containment. -/
def hasSub (pat : List Char) : List Char → Bool
  | [] => startsL pat []
  | c :: cs => startsL pat (c :: cs) || hasSub pat cs

/-- Case-insensitive literal match: `pat` is given lower-cased; on success
returns the matched characters as they appear in the input, and the rest. -/
def ciMatch : List Char → List Char → Option (List Char × List Char)
  | [], l => some ([], l)
  | _ :: _, [] => none
  | p :: ps, c :: cs =>
      if lowerCh c = p then
        match ciMatch ps cs with
        | some pr => some (c :: pr.1, pr.2)
        | none => none
      else none

/-- Splits off the maximal leading run of characters satisfying `p`. -/
def runSplit (p : Char → Bool) : List Char → List Char × List Char
  | [] => ([], [])
  | c :: cs =>
      if p c then (c :: (runSplit p cs).1, (runSplit p cs).2)
      else ([], c :: cs)

/-- Number of whitespace-separated tokens, as `len(text.split())`. -/
def countTokAux : Bool → List Char → Nat
  | _, [] => 0
  | inTok, c :: cs =>
      if isSpaceCh c then countTokAux false cs
      else (if inTok then 0 else 1) + countTokAux true cs

def countTokensL (l : List Char) : Nat := countTokAux false l

/-! ### The affirmative-response check of `process_request` -/

/-- `affirmative_responses = ['yes', 'sure', 'ok', 'affirmative', 'yep', 'yeah', 'proceed']` -/
def affirmativeResponses : List (List Char) :=
  ["yes".data, "sure".data, "ok".data, "affirmative".data,
   "yep".data, "yeah".data, "proceed".data]

/-- `any(response in text for response in affirmative_responses)` -/
def isAffirm (l : List Char) : Bool :=
  affirmativeResponses.any (fun p => hasSub p l)

/-! ### `extract_amount`

Regex: `\b(\d+(?:\.\d{1,2})?)\s*(USD|EUR|GBP|dollars|euros|pounds)?\b`
with `re.IGNORECASE`, searched leftmost; `float` of group 1 is modelled as
a rational.  The scan below reproduces the backtracking order of the
pattern: maximal integer part (shorter integer parts can never satisfy the
continuation, since the following character would be a digit), fractional
part with two digits, then one, then none, maximal `\s*`, each currency
alternative in order, then the absent-currency case, and finally the
trailing `\b`. -/

def digitsValL (l : List Char) : Nat :=
  l.foldl (fun a c => a * 10 + (c.toNat - '0'.toNat)) 0

/-- Value of `float(intPart + "." + fracPart)` as a rational:
`intPart.fracPart = (intPart * 10^k + fracPart) / 10^k`. -/
def ratVal (intPart fracPart : List Char) : ℚ :=
  mkRat (digitsValL intPart * 10 ^ fracPart.length + digitsValL fracPart)
    (10 ^ fracPart.length)

/-- `\b` immediately after a word character: next char absent or non-word. -/
def boundaryAfterOk : List Char → Bool
  | [] => true
  | c :: _ => !isWordCh c

/-- `\b` before the first character of a match that starts with a word
character: start of string or previous character non-word. -/
def boundaryBefore : Option Char → Bool
  | none => true
  | some c => !isWordCh c

/-- Currency alternatives, lower-cased, in the pattern's alternation order. -/
def currencyWords : List (List Char) :=
  ["usd".data, "eur".data, "gbp".data, "dollars".data, "euros".data, "pounds".data]

/-- Try the currency alternatives at `l` in order; an alternative succeeds
only if the trailing `\b` also holds after it.  Returns the matched text. -/
def tryCurrency : List (List Char) → List Char → Option (List Char)
  | [], _ => none
  | w :: ws, l =>
      match ciMatch w l with
      | some pr => if boundaryAfterOk pr.2 then some pr.1 else tryCurrency ws l
      | none => tryCurrency ws l

/-- The `\s*(CUR)?\b` tail after the numeric part.  `some cur?` on success
(`cur? = none` meaning the currency group did not participate), `none` when
the whole position fails.  When at least one whitespace character was
consumed the absent-currency case always succeeds, because `\s*` can
backtrack to length zero where the digit/space boundary satisfies `\b`. -/
def finishAmount (rest : List Char) : Option (Option (List Char)) :=
  match tryCurrency currencyWords (runSplit isSpaceCh rest).2 with
  | some m => some (some m)
  | none =>
      if (runSplit isSpaceCh rest).1.isEmpty then
        if boundaryAfterOk (runSplit isSpaceCh rest).2 then some none else none
      else some none

/-- Candidates for `(?:\.\d{1,2})?` in backtracking order (two fractional
digits, then one); the absent case is appended by the caller. -/
def fracTry : List Char → List (List Char × List Char)
  | '.' :: d1 :: d2 :: r =>
      if isDigitCh d1 && isDigitCh d2 then [([d1, d2], r), ([d1], d2 :: r)]
      else if isDigitCh d1 then [([d1], d2 :: r)]
      else []
  | ['.', d1] => if isDigitCh d1 then [([d1], [])] else []
  | _ => []

def firstSome {α : Type} : List (Option α) → Option α
  | [] => none
  | some a :: _ => some a
  | none :: rest => firstSome rest

/-- Attempt of the amount pattern at a position known to start with a digit
(and to satisfy the leading `\b`). -/
def matchAmountAt (l : List Char) : Option (ℚ × Option (List Char)) :=
  if (runSplit isDigitCh l).1.isEmpty then none
  else
    firstSome
      ((fracTry (runSplit isDigitCh l).2 ++ [([], (runSplit isDigitCh l).2)]).map
        fun (fr : List Char × List Char) =>
          match finishAmount fr.2 with
          | some cur => some (ratVal (runSplit isDigitCh l).1 fr.1, cur)
          | none => none)

/-- Leftmost search of the amount pattern; `prev` is the character before
the current position (for `\b`). -/
def amountScan (prev : Option Char) : List Char → Option (ℚ × Option (List Char))
  | [] => none
  | c :: cs =>
      if boundaryBefore prev && isDigitCh c then
        match matchAmountAt (c :: cs) with
        | some r => some r
        | none => amountScan (some c) cs
      else amountScan (some c) cs

/-- `extract_amount` of the source: on a match, group 2 defaults to `"USD"`
when the currency group did not participate; `(None, None)` otherwise. -/
def extract_amount (s : String) : Option ℚ × Option String :=
  match amountScan none s.data with
  | some (a, some cur) => (some a, some ⟨cur⟩)
  | some (a, none) => (some a, some "USD")
  | none => (none, none)

/-! ### `extract_project_info`

Project number regex: `\b(?:PRJ-|P)?\d{1,}\b` (case sensitive).
Project name regex: `(?:project\s+)?([a-zA-Z0-9_\-]+)` with `re.IGNORECASE`.
Both searched leftmost, independently. -/

/-- `\d{1,}\b`: a non-empty digit run followed by a `\b`. -/
def digitsThenBoundary (l : List Char) : Option (List Char) :=
  if (runSplit isDigitCh l).1.isEmpty then none
  else if boundaryAfterOk (runSplit isDigitCh l).2 then some (runSplit isDigitCh l).1
  else none

/-- Attempt of the project-number pattern at one position (leading `\b` is
checked by the caller).  Alternation order `PRJ-`, `P`, empty prefix; when
the head is `'P'` and the `PRJ-` branch fails, the remaining two branches
fail as well because the next character is not a digit. -/
def matchProjNumAt : List Char → Option (List Char)
  | [] => none
  | c :: cs =>
      if c = 'P' then
        match cs with
        | 'R' :: 'J' :: '-' :: r =>
            match digitsThenBoundary r with
            | some ds => some ('P' :: 'R' :: 'J' :: '-' :: ds)
            | none => none
        | _ =>
            match digitsThenBoundary cs with
            | some ds => some ('P' :: ds)
            | none => none
      else
        match digitsThenBoundary (c :: cs) with
        | some ds => some ds
        | none => none

/-- Leftmost search of the project-number pattern. -/
def projNumScan (prev : Option Char) : List Char → Option (List Char)
  | [] => none
  | c :: cs =>
      if boundaryBefore prev then
        match matchProjNumAt (c :: cs) with
        | some r => some r
        | none => projNumScan (some c) cs
      else projNumScan (some c) cs

/-- Character class `[a-zA-Z0-9_\-]` of the project-name group. -/
def isNameCh (c : Char) : Bool := isAlphaCh c || isDigitCh c || c = '_' || c = '-'

/-- Attempt of the project-name pattern at a position whose head is a name
character: if the literal `project` (case-insensitively) followed by at
least one whitespace and a non-empty name token is present, the token is
captured; otherwise the optional prefix is dropped and the maximal name run
at the position is captured. -/
def matchNameAt (l : List Char) : List Char :=
  match ciMatch "project".data l with
  | some pr =>
      if (runSplit isSpaceCh pr.2).1.isEmpty then (runSplit isNameCh l).1
      else if (runSplit isNameCh (runSplit isSpaceCh pr.2).2).1.isEmpty
      then (runSplit isNameCh l).1
      else (runSplit isNameCh (runSplit isSpaceCh pr.2).2).1
  | none => (runSplit isNameCh l).1

/-- Leftmost search of the project-name pattern: the first position bearing
a name character (any successful match must start with one). -/
def projNameScan : List Char → Option (List Char)
  | [] => none
  | c :: cs => if isNameCh c then some (matchNameAt (c :: cs)) else projNameScan cs

/-- `extract_project_info` of the source. -/
def extract_project_info (s : String) : Option String × Option String :=
  ((projNameScan s.data).map (fun l => (⟨l⟩ : String)),
   (projNumScan none s.data).map (fun l => (⟨l⟩ : String)))

/-! ### Session state and the dialogue state machine `process_request` -/

inductive Stage where
  | project
  | amount
  | reason
  | confirm
deriving DecidableEq

/-- The in-progress request dictionary `st.session_state['request']`; a key
absent from the dictionary is a `none` field. -/
structure Request where
  project_name : Option String := none
  project_number : Option String := none
  amount : Option ℚ := none
  currency : Option String := none
  reason : Option String := none
deriving DecidableEq

def emptyRequest : Request := {}

inductive Sender where
  | user
  | assistant
deriving DecidableEq

/-- Message texts, one constructor per `add_message` call site of the
source, carrying the data interpolated into the corresponding f-string. -/
inductive Msg where
  | userText (t : String)
  | welcome
  | submitSuccess
  | newRequestPrompt
  | projectInfo (name number : String)
  | askAmount
  | noProjectNumber
  | amountReceived (a : ℚ) (c : Option String)
  | askReason
  | noAmount
  | needDetailedReason
  | summary (name number : Option String) (a : Option ℚ) (c r : Option String)
  | cancelled
  | confirmYesNo
deriving DecidableEq

/-- One row of the `requests` table as inserted by `save_request`
(the timestamp column is not modelled). -/
structure Record where
  project_name : Option String
  project_number : Option String
  amount : Option ℚ
  currency : Option String
  reason : Option String
  status : String
deriving DecidableEq

/-- The mutable session: stage, in-progress request, chat transcript and
the request store (list of inserted rows, in insertion order). -/
structure AppState where
  stage : Stage
  request : Request
  messages : List (Msg × Sender)
  store : List Record
deriving DecidableEq

/-- `add_message` of the source. -/
def addMessage (s : AppState) (m : Msg) (snd : Sender) : AppState :=
  { s with messages := s.messages ++ [(m, snd)] }

/-- The row built by `save_request`: the request's fields via `.get` plus
status `"Pending"`. -/
def requestRecord (r : Request) : Record :=
  ⟨r.project_name, r.project_number, r.amount, r.currency, r.reason, "Pending"⟩

/-- `save_request` of the source: insert one row. -/
def saveRequest (s : AppState) : AppState :=
  { s with store := s.store ++ [requestRecord s.request] }

/-- Python `project_name or "Unnamed Project"` (both `None` and the empty
string are falsy). -/
def orUnnamed (o : Option String) : String :=
  match o with
  | some x => if x = "" then "Unnamed Project" else x
  | none => "Unnamed Project"

/-- The stage-specific part of `process_request` (after the affirmative
interception), acting on the lower-cased utterance `t`. -/
def stageStep (s1 : AppState) (t : String) : AppState :=
  match s1.stage with
  | Stage.project =>
      match (extract_project_info t).2 with
      | some num =>
          addMessage (addMessage
            { s1 with
                request := { s1.request with
                    project_name := some (orUnnamed (extract_project_info t).1),
                    project_number := some num },
                stage := Stage.amount }
            (Msg.projectInfo (orUnnamed (extract_project_info t).1) num) Sender.assistant)
            Msg.askAmount Sender.assistant
      | none => addMessage s1 Msg.noProjectNumber Sender.assistant
  | Stage.amount =>
      match (extract_amount t).1 with
      | some a =>
          if a = 0 then addMessage s1 Msg.noAmount Sender.assistant
          else
            addMessage (addMessage
              { s1 with
                  request := { s1.request with
                      amount := some a, currency := (extract_amount t).2 },
                  stage := Stage.reason }
              (Msg.amountReceived a (extract_amount t).2) Sender.assistant)
              Msg.askReason Sender.assistant
      | none => addMessage s1 Msg.noAmount Sender.assistant
  | Stage.reason =>
      if 3 ≤ countTokensL t.data then
        addMessage
          { s1 with request := { s1.request with reason := some t }, stage := Stage.confirm }
          (Msg.summary s1.request.project_name s1.request.project_number
            s1.request.amount s1.request.currency (some t)) Sender.assistant
      else addMessage s1 Msg.needDetailedReason Sender.assistant
  | Stage.confirm =>
      if t = "no" ∨ t = "cancel" then
        addMessage { s1 with stage := Stage.project, request := emptyRequest }
          Msg.cancelled Sender.assistant
      else addMessage s1 Msg.confirmYesNo Sender.assistant

/-- `process_request` of the source: echo the raw utterance as a user
message, lower-case it, intercept affirmative responses (submitting and
resetting when the stage is `confirm`, silently absorbing the turn
otherwise; the transcript is cleared last, after the success messages were
appended), and otherwise dispatch on the stage. -/
def processRequest (s : AppState) (text : String) : AppState :=
  let s1 := addMessage s (Msg.userText text) Sender.user
  let t := lowerS text
  if isAffirm t.data then
    if s1.stage = Stage.confirm then
      { addMessage
          (addMessage
            { saveRequest s1 with stage := Stage.project, request := emptyRequest }
            Msg.submitSuccess Sender.assistant)
          Msg.newRequestPrompt Sender.assistant
        with messages := [] }
    else s1
  else stageStep s1 t

/-- `process_request` when the sqlite insert inside `save_request` raises:
the source has no handler, so the exception escapes `process_request` and
the statements after the `save_request()` call never run. `.error` carries
the session state at the moment the exception propagates out; `.ok` is the
normal return on every path that does not reach the insert. -/
def processRequestStoreFail (s : AppState) (text : String) : Except AppState AppState :=
  let s1 := addMessage s (Msg.userText text) Sender.user
  let t := lowerS text
  if isAffirm t.data then
    if s1.stage = Stage.confirm then Except.error s1
    else Except.ok s1
  else Except.ok (stageStep s1 t)

/-- The session as `main` creates it: stage `project`, empty request, only
the welcome message; the store may already hold earlier rows. -/
def initState (store0 : List Record) : AppState :=
  ⟨Stage.project, emptyRequest, [(Msg.welcome, Sender.assistant)], store0⟩

/-- Session states reachable through any sequence of processed utterances. -/
inductive Reachable : AppState → Prop where
  | init (store0 : List Record) : Reachable (initState store0)
  | step (s : AppState) (t : String) : Reachable s → Reachable (processRequest s t)

/-- The stage/request correlation maintained by the state machine: each
stage pins down exactly which request fields are present. -/
def StageInvOf (st : Stage) (r : Request) : Prop :=
  match st with
  | Stage.project => r = emptyRequest
  | Stage.amount =>
      r.project_name.isSome = true ∧ r.project_number.isSome = true ∧
      r.amount = none ∧ r.currency = none ∧ r.reason = none
  | Stage.reason =>
      r.project_name.isSome = true ∧ r.project_number.isSome = true ∧
      r.amount.isSome = true ∧ r.currency.isSome = true ∧ r.reason = none
  | Stage.confirm =>
      r.project_name.isSome = true ∧ r.project_number.isSome = true ∧
      r.amount.isSome = true ∧ r.currency.isSome = true ∧ r.reason.isSome = true

def StageInv (s : AppState) : Prop := StageInvOf s.stage s.request

/-! ### Concrete session states used by counterexamples and witnesses -/

/-- After one turn of the happy path: stage `amount`. -/
def exAmountState : AppState := processRequest (initState []) "project 4021"

/-- After two turns: stage `reason`. -/
def exReasonState : AppState := processRequest exAmountState "300 usd"

/-- After three turns: stage `confirm`, request complete. -/
def exConfirmState : AppState := processRequest exReasonState "client dinner with partners"

/-! ### Basic lemmas about the session-state operations -/

@[simp] theorem addMessage_stage (s : AppState) (m : Msg) (snd : Sender) :
    (addMessage s m snd).stage = s.stage := rfl

@[simp] theorem addMessage_request (s : AppState) (m : Msg) (snd : Sender) :
    (addMessage s m snd).request = s.request := rfl

@[simp] theorem addMessage_store (s : AppState) (m : Msg) (snd : Sender) :
    (addMessage s m snd).store = s.store := rfl

@[simp] theorem addMessage_messages (s : AppState) (m : Msg) (snd : Sender) :
    (addMessage s m snd).messages = s.messages ++ [(m, snd)] := rfl

/-! ### Claim C1 -/

/-- C1 counterexample: in a reachable `confirm`-stage session, processing
`"yes"` leaves the transcript empty — the success message and the
new-request prompt are appended and then wiped by the final clear, so the
transcript does not contain them, contrary to the claim. -/
theorem c1_counterexample :
    exConfirmState.stage = Stage.confirm ∧
    (processRequest exConfirmState "yes").messages = [] ∧
    (Msg.submitSuccess, Sender.assistant) ∉ (processRequest exConfirmState "yes").messages := by
  refine ⟨by decide, by decide, by decide⟩

/-- C1 (amended): for every session in stage `confirm`, an utterance
containing an affirmative token submits the request to the store as a row
with status "Pending", resets the stage to `project`, clears the request,
and clears the transcript entirely — the success message and new-request
prompt are appended before the clear, so the final transcript is empty. -/
theorem c1_affirm_submit_resets (s : AppState) (text : String)
    (h1 : s.stage = Stage.confirm) (h2 : isAffirm (lowerS text).data = true) :
    processRequest s text =
      { stage := Stage.project, request := emptyRequest, messages := [],
        store := s.store ++ [requestRecord s.request] } ∧
    (requestRecord s.request).status = "Pending" := by
  refine ⟨?_, rfl⟩
  unfold processRequest
  simp [h2, addMessage, saveRequest, h1]

/-- Witness for C1: the amended theorem applied to the concrete reachable
`confirm` state and the utterance `"yes"`. -/
theorem c1_affirm_submit_resets_witness :
    processRequest exConfirmState "yes" =
      { stage := Stage.project, request := emptyRequest, messages := [],
        store := exConfirmState.store ++ [requestRecord exConfirmState.request] } ∧
    (requestRecord exConfirmState.request).status = "Pending" :=
  c1_affirm_submit_resets exConfirmState "yes" (by decide) (by decide)

/-! ### Claim C2 -/

/-- C2: for every session whose stage is not `confirm`, an utterance
containing an affirmative token is silently absorbed: the resulting state
is the input state with only the user echo appended — stage, request and
store unchanged, no assistant message emitted. -/
theorem c2_affirm_absorbed_other_stages (s : AppState) (text : String)
    (h1 : s.stage ≠ Stage.confirm) (h2 : isAffirm (lowerS text).data = true) :
    processRequest s text = addMessage s (Msg.userText text) Sender.user := by
  unfold processRequest
  simp [h2, addMessage, h1]

/-- Witness for C2: typing `"yes"` during the `amount` stage produces no
visible response. -/
theorem c2_affirm_absorbed_other_stages_witness :
    processRequest exAmountState "yes" =
      addMessage exAmountState (Msg.userText "yes") Sender.user :=
  c2_affirm_absorbed_other_stages exAmountState "yes" (by decide) (by decide)

/-! ### Claim C7 -/

/-- C7: in stage `confirm`, a lower-cased utterance equal to "no" or
"cancel" resets the session (stage `project`, request cleared) and emits a
cancellation message, writing nothing to the store; any other utterance
not containing an affirmative token leaves the state unchanged apart from
a yes/no re-prompt. -/
theorem c7_confirm_cancel_and_reprompt (s : AppState) (text : String)
    (h1 : s.stage = Stage.confirm) :
    ((lowerS text = "no" ∨ lowerS text = "cancel") →
      processRequest s text =
        addMessage { addMessage s (Msg.userText text) Sender.user with
            stage := Stage.project, request := emptyRequest }
          Msg.cancelled Sender.assistant) ∧
    (isAffirm (lowerS text).data = false → lowerS text ≠ "no" → lowerS text ≠ "cancel" →
      processRequest s text =
        addMessage (addMessage s (Msg.userText text) Sender.user)
          Msg.confirmYesNo Sender.assistant) := by
  constructor
  · intro hc
    have haff : isAffirm (lowerS text).data = false := by
      rcases hc with h | h <;> rw [h] <;> decide
    unfold processRequest stageStep
    simp [haff, addMessage, h1, hc]
  · intro haff hno hcancel
    unfold processRequest stageStep
    simp [haff, addMessage, h1, hno, hcancel]

/-- Witness for C7: cancelling from the concrete `confirm` state. -/
theorem c7_confirm_cancel_and_reprompt_witness :
    processRequest exConfirmState "cancel" =
      addMessage { addMessage exConfirmState (Msg.userText "cancel") Sender.user with
          stage := Stage.project, request := emptyRequest }
        Msg.cancelled Sender.assistant :=
  (c7_confirm_cancel_and_reprompt exConfirmState "cancel" (by decide)).1 (by decide)

/-! ### Claim C9 -/

/-- C9: when the store insert raises during an affirmative `confirm` turn,
the exception escapes `process_request`: the session is left in stage
`confirm` with the request intact, but the only transcript change is the
user echo — no distinct failure message is emitted, contrary to the
claim's required surfacing. -/
theorem c9_store_failure_keeps_state_no_message (s : AppState) (text : String)
    (h1 : s.stage = Stage.confirm) (h2 : isAffirm (lowerS text).data = true) :
    processRequestStoreFail s text =
      Except.error (addMessage s (Msg.userText text) Sender.user) ∧
    (addMessage s (Msg.userText text) Sender.user).stage = Stage.confirm ∧
    (addMessage s (Msg.userText text) Sender.user).request = s.request := by
  refine ⟨?_, by simpa using h1, rfl⟩
  unfold processRequestStoreFail
  simp [h2, addMessage, h1]

/-! ### Branch shapes of `processRequest` -/

/-- Affirmative utterance in stage `confirm`: submit, reset, clear. -/
theorem processRequest_affirm_confirm (s : AppState) (text : String)
    (h1 : s.stage = Stage.confirm) (h2 : isAffirm (lowerS text).data = true) :
    processRequest s text =
      { stage := Stage.project, request := emptyRequest, messages := [],
        store := s.store ++ [requestRecord s.request] } := by
  unfold processRequest
  simp [h2, addMessage, saveRequest, h1]

/-- Affirmative utterance in any other stage: only the user echo. -/
theorem processRequest_affirm_other (s : AppState) (text : String)
    (h1 : s.stage ≠ Stage.confirm) (h2 : isAffirm (lowerS text).data = true) :
    processRequest s text = addMessage s (Msg.userText text) Sender.user := by
  unfold processRequest
  simp [h2, addMessage, h1]

/-- Non-affirmative utterance: stage dispatch on the lower-cased text. -/
theorem processRequest_not_affirm (s : AppState) (text : String)
    (h2 : isAffirm (lowerS text).data = false) :
    processRequest s text =
      stageStep (addMessage s (Msg.userText text) Sender.user) (lowerS text) := by
  unfold processRequest
  simp [h2]

/-! ### Lemmas about the currency component of `extract_amount` -/

theorem ciMatch_lower (pat : List Char) :
    ∀ l m r, ciMatch pat l = some (m, r) → lowerL m = pat := by
  induction pat with
  | nil =>
      intro l m r h
      have h2 : (some ([], l) : Option (List Char × List Char)) = some (m, r) := h
      simp only [Option.some.injEq, Prod.mk.injEq] at h2
      rw [← h2.1]
      rfl
  | cons p ps ih =>
      intro l m r h
      cases l with
      | nil => simp [ciMatch] at h
      | cons c cs =>
          unfold ciMatch at h
          split at h
          · cases hm : ciMatch ps cs with
            | none => rw [hm] at h; simp at h
            | some q =>
                rw [hm] at h
                simp only [Option.some.injEq, Prod.mk.injEq] at h
                obtain ⟨hm1, -⟩ := h
                rw [← hm1]
                simp only [lowerL, List.map_cons]
                have h1 := ih cs q.1 q.2 (by rw [hm])
                simp only [lowerL] at h1
                simp_all
          · simp at h

theorem tryCurrency_mem :
    ∀ (ws : List (List Char)) (l m : List Char),
      tryCurrency ws l = some m → lowerL m ∈ ws := by
  intro ws
  induction ws with
  | nil => intro l m h; simp [tryCurrency] at h
  | cons w rest ih =>
      intro l m h
      unfold tryCurrency at h
      cases hc : ciMatch w l with
      | none => rw [hc] at h; exact List.mem_cons_of_mem _ (ih l m h)
      | some p =>
          obtain ⟨mm, rr⟩ := p
          rw [hc] at h
          have h2 : (if boundaryAfterOk rr then some mm else tryCurrency rest l) = some m := h
          by_cases hb : boundaryAfterOk rr
          · rw [if_pos hb] at h2
            have hmm : mm = m := by injection h2
            have hl := ciMatch_lower w l mm rr (by rw [hc])
            rw [← hmm, hl]
            exact List.mem_cons_self _ _
          · rw [if_neg hb] at h2
            exact List.mem_cons_of_mem _ (ih l m h2)

theorem finishAmount_currency_mem (rest m : List Char)
    (h : finishAmount rest = some (some m)) : lowerL m ∈ currencyWords := by
  unfold finishAmount at h
  cases hc : tryCurrency currencyWords (runSplit isSpaceCh rest).2 with
  | some m' =>
      rw [hc] at h
      simp only [Option.some.injEq] at h
      rw [← h]
      exact tryCurrency_mem currencyWords (runSplit isSpaceCh rest).2 m' hc
  | none =>
      rw [hc] at h
      by_cases he : (runSplit isSpaceCh rest).1.isEmpty
      · by_cases hb : boundaryAfterOk (runSplit isSpaceCh rest).2
        · simp [he, hb] at h
        · simp [he, hb] at h
      · simp [he] at h

theorem firstSome_mem {α : Type} :
    ∀ (xs : List (Option α)) (v : α), firstSome xs = some v → some v ∈ xs := by
  intro xs
  induction xs with
  | nil => intro v h; simp [firstSome] at h
  | cons x rest ih =>
      intro v h
      cases x with
      | some a => simp [firstSome] at h; simp [h]
      | none => exact List.mem_cons_of_mem _ (ih v h)

theorem matchAmountAt_currency_mem (l : List Char) (a : ℚ) (m : List Char)
    (h : matchAmountAt l = some (a, some m)) : lowerL m ∈ currencyWords := by
  unfold matchAmountAt at h
  split at h
  · simp at h
  · have hmem := firstSome_mem _ _ h
    simp only [List.mem_map] at hmem
    obtain ⟨fr, -, hfr⟩ := hmem
    cases hf : finishAmount fr.2 with
    | none => rw [hf] at hfr; simp at hfr
    | some cur =>
        rw [hf] at hfr
        simp only [Option.some.injEq, Prod.mk.injEq] at hfr
        obtain ⟨-, hcur⟩ := hfr
        rw [hcur] at hf
        exact finishAmount_currency_mem fr.2 m hf

theorem amountScan_currency_mem :
    ∀ (l : List Char) (prev : Option Char) (a : ℚ) (m : List Char),
      amountScan prev l = some (a, some m) → lowerL m ∈ currencyWords := by
  intro l
  induction l with
  | nil => intro prev a m h; simp [amountScan] at h
  | cons c cs ih =>
      intro prev a m h
      unfold amountScan at h
      split at h
      · cases hm : matchAmountAt (c :: cs) with
        | some r =>
            rw [hm] at h
            simp at h
            exact matchAmountAt_currency_mem (c :: cs) a m (h ▸ hm)
        | none => rw [hm] at h; exact ih _ _ _ h
      · exact ih _ _ _ h

/-- When the numeric part matched, the currency component is always
populated (with the default on a missing currency group). -/
theorem extract_amount_snd_isSome (t : String) (a : ℚ)
    (h : (extract_amount t).1 = some a) : (extract_amount t).2.isSome = true := by
  unfold extract_amount at h ⊢
  cases hs : amountScan none t.data with
  | none => rw [hs] at h; simp at h
  | some p =>
      obtain ⟨a', cur⟩ := p
      cases cur <;> simp

/-! ### Lemmas about the project-info scans -/

theorem runSplit_fst_cons (p : Char → Bool) (c : Char) (cs : List Char) (h : p c = true) :
    (runSplit p (c :: cs)).1 = c :: (runSplit p cs).1 := by
  simp [runSplit, h]

theorem runSplit_neg (p : Char → Bool) (c : Char) (cs : List Char) (h : p c = false) :
    runSplit p (c :: cs) = ([], c :: cs) := by
  simp [runSplit, h]

/-- The captured project name is never empty when the position bears a name
character (all branches capture a `+`-quantified run). -/
theorem matchNameAt_ne_nil (l : List Char) (h : (runSplit isNameCh l).1 ≠ []) :
    matchNameAt l ≠ [] := by
  unfold matchNameAt
  cases hci : ciMatch "project".data l with
  | none => simpa using h
  | some pr =>
      by_cases h1 : (runSplit isSpaceCh pr.2).1.isEmpty
      · simpa [h1] using h
      · by_cases h2 : (runSplit isNameCh (runSplit isSpaceCh pr.2).2).1.isEmpty
        · simpa [h1, h2] using h
        · simp only [h1, h2, if_false, Bool.false_eq_true]
          intro hcon
          exact h2 (by rw [hcon]; rfl)

theorem projNameScan_some_ne_nil :
    ∀ (l : List Char) (nm : List Char), projNameScan l = some nm → nm ≠ [] := by
  intro l
  induction l with
  | nil => intro nm h; simp [projNameScan] at h
  | cons c cs ih =>
      intro nm h
      unfold projNameScan at h
      by_cases hc : isNameCh c
      · rw [if_pos hc] at h
        have hn : matchNameAt (c :: cs) ≠ [] := by
          apply matchNameAt_ne_nil
          rw [runSplit_fst_cons _ _ _ hc]
          simp
        injection h with h'
        rw [← h']
        exact hn
      · rw [if_neg hc] at h
        exact ih nm h

theorem projNameScan_none :
    ∀ l : List Char, projNameScan l = none → ∀ c ∈ l, isNameCh c = false := by
  intro l
  induction l with
  | nil => intro h c hc; simp at hc
  | cons c cs ih =>
      intro h d hd
      unfold projNameScan at h
      by_cases hc : isNameCh c
      · rw [if_pos hc] at h; simp at h
      · rw [if_neg hc] at h
        rcases List.mem_cons.mp hd with rfl | hd'
        · simpa using hc
        · exact ih h d hd'

/-- If no character of the input lies in the name class, the project-number
scan fails as well: every successful number match starts with `'P'` or a
digit, both of which are name characters. -/
theorem projNumScan_none_of_noName :
    ∀ l : List Char, (∀ c ∈ l, isNameCh c = false) → ∀ prev, projNumScan prev l = none := by
  intro l
  induction l with
  | nil => intro h prev; simp [projNumScan]
  | cons c cs ih =>
      intro h prev
      have hc : isNameCh c = false := h c (List.mem_cons_self _ _)
      have hcP : ¬ c = 'P' := by
        intro hh
        rw [hh] at hc
        simp [isNameCh, isAlphaCh, isUpperCh] at hc
      have hcD : isDigitCh c = false := by
        unfold isNameCh at hc
        rcases Bool.or_eq_false_iff.mp hc with ⟨h3, -⟩
        rcases Bool.or_eq_false_iff.mp h3 with ⟨h4, -⟩
        exact (Bool.or_eq_false_iff.mp h4).2
      have hdtb : digitsThenBoundary (c :: cs) = none := by
        simp [digitsThenBoundary, runSplit, hcD]
      have hmatch : matchProjNumAt (c :: cs) = none := by
        simp [matchProjNumAt, hcP, hdtb]
      have htail : ∀ prev2, projNumScan prev2 cs = none :=
        ih (fun d hd => h d (List.mem_cons_of_mem _ hd))
      unfold projNumScan
      by_cases hb : boundaryBefore prev
      · simp [hb, hmatch, htail]
      · simp [hb, htail]

/-- When the project-number scan succeeds, the name scan succeeds with a
non-empty capture. -/
theorem extract_project_info_name_of_num (s num : String)
    (h : (extract_project_info s).2 = some num) :
    ∃ nm : String, (extract_project_info s).1 = some nm ∧ nm ≠ "" := by
  unfold extract_project_info at h ⊢
  cases hn : projNameScan s.data with
  | none =>
      exfalso
      have hall := projNameScan_none s.data hn
      have h0 := projNumScan_none_of_noName s.data hall none
      rw [h0] at h
      simp at h
  | some nm =>
      refine ⟨⟨nm⟩, by simp, ?_⟩
      have hne := projNameScan_some_ne_nil s.data nm hn
      intro hcon
      apply hne
      have hdat := congrArg String.data hcon
      simpa using hdat

/-! ### Claim C4 -/

/-- C4: the `extract_amount` contract — the three documented examples hold;
a missing numeric match yields `(None, None)` and nothing else does; a
numeric match always carries a currency, defaulting to `"USD"`; and any
non-default currency is (case-insensitively) one of the closed set
usd/eur/gbp/dollars/euros/pounds. -/
theorem c4_extract_amount_contract :
    extract_amount "Please approve 250 for travel" = (some 250, some "USD") ∧
    extract_amount "120.50 EUR for supplies" = (some (120.50 : ℚ), some "EUR") ∧
    extract_amount "no numbers here" = (none, none) ∧
    (∀ s : String, (extract_amount s).1 = none → extract_amount s = (none, none)) ∧
    (∀ (s : String) (a : ℚ), (extract_amount s).1 = some a →
      ∃ c, (extract_amount s).2 = some c) ∧
    (∀ (s c : String), (extract_amount s).2 = some c →
      c = "USD" ∨ lowerS c ∈ (["usd", "eur", "gbp", "dollars", "euros", "pounds"] : List String)) := by
  refine ⟨by decide, ?_, by decide, ?_, ?_, ?_⟩
  · have h1250 : (120.50 : ℚ) = mkRat 241 2 := by
      rw [Rat.mkRat_eq_div]; norm_num
    rw [h1250]; decide
  · intro s h
    unfold extract_amount at h ⊢
    cases hs : amountScan none s.data with
    | none => simp
    | some p => obtain ⟨a', cur⟩ := p; cases cur <;> rw [hs] at h <;> simp at h
  · intro s a h
    have := extract_amount_snd_isSome s a h
    exact Option.isSome_iff_exists.mp this
  · intro s c h
    unfold extract_amount at h
    cases hs : amountScan none s.data with
    | none => rw [hs] at h; simp at h
    | some p =>
        obtain ⟨a', cur⟩ := p
        cases cur with
        | none => rw [hs] at h; simp at h; left; exact h.symm
        | some curl =>
            rw [hs] at h
            simp at h
            subst h
            right
            have hmem := amountScan_currency_mem s.data none a' curl hs
            simp only [currencyWords, List.mem_cons, List.not_mem_nil, or_false] at hmem
            have hstr : lowerS ⟨curl⟩ = (⟨lowerL curl⟩ : String) := rfl
            rcases hmem with h | h | h | h | h | h <;> rw [hstr, h] <;> simp

/-- Witness for C4: the universally quantified parts at concrete inputs. -/
theorem c4_extract_amount_contract_witness :
    extract_amount "none at all" = (none, none) ∧
    (∃ c, (extract_amount "5 eur").2 = some c) ∧
    (("gBp" : String) = "USD" ∨
      lowerS "gBp" ∈ (["usd", "eur", "gbp", "dollars", "euros", "pounds"] : List String)) :=
  ⟨c4_extract_amount_contract.2.2.2.1 "none at all" (by decide),
   c4_extract_amount_contract.2.2.2.2.1 "5 eur" 5 (by decide),
   c4_extract_amount_contract.2.2.2.2.2 "9 gBp" "gBp" (by decide)⟩

/-! ### Claim C5 -/

/-- C5 counterexample: in the `amount` stage the utterance `"0"` is found
by the extractor (amount 0.0, default currency USD), yet the session does
not store it and does not advance to `reason` — Python's falsy `0.0` takes
the re-prompt branch, contrary to the claim. -/
theorem c5_counterexample :
    exAmountState.stage = Stage.amount ∧
    isAffirm (lowerS "0").data = false ∧
    (extract_amount (lowerS "0")).1 = some 0 ∧
    (processRequest exAmountState "0").stage = Stage.amount ∧
    (processRequest exAmountState "0").request.amount = none := by
  decide

/-- C5 (amended): in stage `amount`, for a non-affirmative utterance, a
nonzero extracted amount is stored together with its currency, the stage
advances to `reason`, and a confirmation plus a reason prompt are emitted;
when no amount is found or the extracted amount equals 0, only a re-prompt
is emitted and stage and request are unchanged. -/
theorem c5_amount_stage (s : AppState) (text : String)
    (h1 : s.stage = Stage.amount) (h2 : isAffirm (lowerS text).data = false) :
    (∀ a : ℚ, (extract_amount (lowerS text)).1 = some a → a ≠ 0 →
      processRequest s text =
        addMessage (addMessage
          { addMessage s (Msg.userText text) Sender.user with
              request := { s.request with
                           amount := some a,
                           currency := (extract_amount (lowerS text)).2 },
              stage := Stage.reason }
          (Msg.amountReceived a (extract_amount (lowerS text)).2) Sender.assistant)
          Msg.askReason Sender.assistant) ∧
    (((extract_amount (lowerS text)).1 = none ∨ (extract_amount (lowerS text)).1 = some 0) →
      processRequest s text =
        addMessage (addMessage s (Msg.userText text) Sender.user)
          Msg.noAmount Sender.assistant) := by
  constructor
  · intro a ha hne
    unfold processRequest stageStep
    simp [h2, addMessage, h1, ha, hne]
  · intro h
    unfold processRequest stageStep
    rcases h with h | h <;> simp [h2, addMessage, h1, h]

/-- Witness for C5: the amended positive branch at the concrete `amount`
state with utterance `"250"`. -/
theorem c5_amount_stage_witness :
    processRequest exAmountState "250" =
      addMessage (addMessage
        { addMessage exAmountState (Msg.userText "250") Sender.user with
            request := { exAmountState.request with
                         amount := some 250,
                         currency := (extract_amount (lowerS "250")).2 },
            stage := Stage.reason }
        (Msg.amountReceived 250 (extract_amount (lowerS "250")).2) Sender.assistant)
        Msg.askReason Sender.assistant :=
  (c5_amount_stage exAmountState "250" (by decide) (by decide)).1 250 (by decide) (by decide)

/-! ### Claim C6 -/

/-- C6 counterexample: in the `reason` stage, a ≥3-token utterance with
upper-case letters is stored lower-cased, not verbatim. -/
theorem c6_counterexample :
    exReasonState.stage = Stage.reason ∧
    isAffirm (lowerS "Taxi To Airport").data = false ∧
    3 ≤ countTokensL (lowerS "Taxi To Airport").data ∧
    (processRequest exReasonState "Taxi To Airport").request.reason = some "taxi to airport" ∧
    (processRequest exReasonState "Taxi To Airport").request.reason ≠ some "Taxi To Airport" := by
  decide

/-- C6 (amended): in stage `reason`, a non-affirmative utterance with at
least 3 whitespace-separated tokens is stored lower-cased as the reason,
the stage advances to `confirm`, and a summary message carrying the
project name, project number, amount, currency and reason is emitted;
with fewer than 3 tokens only a re-prompt is emitted and stage and request
are unchanged. -/
theorem c6_reason_stage (s : AppState) (text : String)
    (h1 : s.stage = Stage.reason) (h2 : isAffirm (lowerS text).data = false) :
    (3 ≤ countTokensL (lowerS text).data →
      processRequest s text =
        addMessage
          { addMessage s (Msg.userText text) Sender.user with
              request := { s.request with reason := some (lowerS text) },
              stage := Stage.confirm }
          (Msg.summary s.request.project_name s.request.project_number
            s.request.amount s.request.currency (some (lowerS text))) Sender.assistant) ∧
    (countTokensL (lowerS text).data < 3 →
      processRequest s text =
        addMessage (addMessage s (Msg.userText text) Sender.user)
          Msg.needDetailedReason Sender.assistant) := by
  constructor
  · intro hc
    unfold processRequest stageStep
    simp [h2, addMessage, h1, hc]
  · intro hc
    have hc3 : ¬ 3 ≤ countTokensL (lowerS text).data := by omega
    unfold processRequest stageStep
    simp [h2, addMessage, h1, hc3]

/-- Witness for C6: the reason-too-short branch at the concrete `reason`
state with utterance `"fix it"` (2 tokens). -/
theorem c6_reason_stage_witness :
    processRequest exReasonState "fix it" =
      addMessage (addMessage exReasonState (Msg.userText "fix it") Sender.user)
        Msg.needDetailedReason Sender.assistant :=
  (c6_reason_stage exReasonState "fix it" (by decide) (by decide)).2 (by decide)

/-! ### Claim C8 -/

/-- C8: the extractors are total Lean functions of the input string (never
raising is totality of the embedding); a missing match is the only failure
mode: `extract_amount` returns either `(none, none)` or a fully populated
pair, and `extract_project_info` returns a populated name component
whenever the number component is populated (the name can only be absent
when every scan fails). -/
theorem c8_extractors_total :
    (∀ s : String, extract_amount s = (none, none) ∨
      ∃ (a : ℚ) (c : String), extract_amount s = (some a, some c)) ∧
    (∀ s : String, ((extract_project_info s).2).isSome = true →
      ((extract_project_info s).1).isSome = true) := by
  constructor
  · intro s
    unfold extract_amount
    cases hs : amountScan none s.data with
    | none => left; rfl
    | some p =>
        obtain ⟨a, cur⟩ := p
        cases cur with
        | none => right; exact ⟨a, "USD", rfl⟩
        | some m => right; exact ⟨a, ⟨m⟩, rfl⟩
  · intro s h
    obtain ⟨num, hnum⟩ := Option.isSome_iff_exists.mp h
    obtain ⟨nm, hnm, -⟩ := extract_project_info_name_of_num s num hnum
    rw [hnm]
    rfl

/-- Witness for C8: the populated branch at a concrete input. -/
theorem c8_extractors_total_witness :
    (extract_amount "zero" = (none, none) ∨
      ∃ (a : ℚ) (c : String), extract_amount "zero" = (some a, some c)) ∧
    ((extract_project_info "send 77 now").1).isSome = true :=
  ⟨c8_extractors_total.1 "zero",
   c8_extractors_total.2 "send 77 now" (by decide)⟩

/-! ### Claim C10 -/

/-- C10: whenever `extract_project_info` returns a project number it also
returns a non-empty project name, so in the `project` stage the stored
name is always the extracted one — the "Unnamed Project" default branch is
never taken. -/
theorem c10_project_name_never_default :
    (∀ s num : String, (extract_project_info s).2 = some num →
      ∃ nm : String, (extract_project_info s).1 = some nm ∧ nm ≠ "") ∧
    (∀ (st : AppState) (text : String), st.stage = Stage.project →
      isAffirm (lowerS text).data = false →
      ((extract_project_info (lowerS text)).2).isSome = true →
      (processRequest st text).request.project_name =
        (extract_project_info (lowerS text)).1) := by
  refine ⟨extract_project_info_name_of_num, ?_⟩
  intro st text h1 h2 hsome
  obtain ⟨num, hnum⟩ := Option.isSome_iff_exists.mp hsome
  obtain ⟨nm, hnm, hne⟩ := extract_project_info_name_of_num (lowerS text) num hnum
  unfold processRequest stageStep
  simp [h2, addMessage, h1, hnum, hnm, orUnnamed, hne]

/-- Witness for C10: both components at the concrete input
`"project 4021"` (already lower-case). -/
theorem c10_project_name_never_default_witness :
    (∃ nm : String, (extract_project_info "project 4021").1 = some nm ∧ nm ≠ "") ∧
    (processRequest (initState []) "project 4021").request.project_name =
      (extract_project_info (lowerS "project 4021")).1 :=
  ⟨c10_project_name_never_default.1 "project 4021" "4021" (by decide),
   c10_project_name_never_default.2 (initState []) "project 4021"
     (by decide) (by decide) (by decide)⟩

/-- Witness for C9: the failure behaviour at the concrete `confirm` state
with utterance `"yes"`. -/
theorem c9_store_failure_keeps_state_no_message_witness :
    processRequestStoreFail exConfirmState "yes" =
      Except.error (addMessage exConfirmState (Msg.userText "yes") Sender.user) ∧
    (addMessage exConfirmState (Msg.userText "yes") Sender.user).stage = Stage.confirm ∧
    (addMessage exConfirmState (Msg.userText "yes") Sender.user).request =
      exConfirmState.request :=
  c9_store_failure_keeps_state_no_message exConfirmState "yes" (by decide) (by decide)

/-! ### The stage/request invariant and claim C3 -/

/-- One stage-dispatch turn preserves the stage/request correlation. -/
theorem stageStep_inv (s1 : AppState) (t : String) (h : StageInv s1) :
    StageInv (stageStep s1 t) := by
  have hOf : StageInvOf s1.stage s1.request := h
  unfold stageStep
  cases hst : s1.stage with
  | project =>
      rw [hst] at hOf
      have hreq : s1.request = emptyRequest := hOf
      cases hpn : (extract_project_info t).2 with
      | some num => simp [StageInv, StageInvOf, addMessage, hreq, emptyRequest]
      | none => simp [StageInv, StageInvOf, addMessage, hst, hreq]
  | amount =>
      rw [hst] at hOf
      obtain ⟨h1, h2, h3, h4, h5⟩ := hOf
      cases ham : (extract_amount t).1 with
      | some a =>
          by_cases ha0 : a = 0
          · simp [ha0, StageInv, StageInvOf, addMessage, hst, h1, h2, h3, h4, h5]
          · have hcur := extract_amount_snd_isSome t a ham
            simp [ha0, StageInv, StageInvOf, addMessage, h1, h2, h5, hcur]
      | none => simp [StageInv, StageInvOf, addMessage, hst, h1, h2, h3, h4, h5]
  | reason =>
      rw [hst] at hOf
      obtain ⟨h1, h2, h3, h4, h5⟩ := hOf
      by_cases hc : 3 ≤ countTokensL t.data
      · simp [hc, StageInv, StageInvOf, addMessage, h1, h2, h3, h4]
      · simp [hc, StageInv, StageInvOf, addMessage, hst, h1, h2, h3, h4, h5]
  | confirm =>
      rw [hst] at hOf
      by_cases hcan : t = "no" ∨ t = "cancel"
      · simp [hcan, StageInv, StageInvOf, addMessage, emptyRequest]
      · obtain ⟨h1, h2, h3, h4, h5⟩ := hOf
        simp [hcan, StageInv, StageInvOf, addMessage, hst, h1, h2, h3, h4, h5]

/-- One full turn preserves the stage/request correlation. -/
theorem stageInv_step (s : AppState) (t : String) (h : StageInv s) :
    StageInv (processRequest s t) := by
  by_cases haff : isAffirm (lowerS t).data = true
  · by_cases hst : s.stage = Stage.confirm
    · rw [processRequest_affirm_confirm s t hst haff]
      exact rfl
    · rw [processRequest_affirm_other s t hst haff]
      exact h
  · rw [processRequest_not_affirm s t (by simpa using haff)]
    exact stageStep_inv _ _ h

/-- Every reachable session state satisfies the correlation. -/
theorem reachable_stageInv (s : AppState) (h : Reachable s) : StageInv s := by
  induction h with
  | init store0 => exact rfl
  | step s' t' h' ih => exact stageInv_step s' t' ih

/-- One turn either clears the whole request or preserves every populated
field (proved from the stage/request correlation). -/
theorem processRequest_frame (s : AppState) (h : StageInv s) (t : String) :
    (processRequest s t).request = emptyRequest ∨
    ((s.request.project_name.isSome = true →
        (processRequest s t).request.project_name = s.request.project_name) ∧
     (s.request.project_number.isSome = true →
        (processRequest s t).request.project_number = s.request.project_number) ∧
     (s.request.amount.isSome = true →
        (processRequest s t).request.amount = s.request.amount) ∧
     (s.request.currency.isSome = true →
        (processRequest s t).request.currency = s.request.currency) ∧
     (s.request.reason.isSome = true →
        (processRequest s t).request.reason = s.request.reason)) := by
  have hOf : StageInvOf s.stage s.request := h
  by_cases haff : isAffirm (lowerS t).data = true
  · by_cases hst : s.stage = Stage.confirm
    · left
      rw [processRequest_affirm_confirm s t hst haff]
    · right
      rw [processRequest_affirm_other s t hst haff]
      simp
  · rw [processRequest_not_affirm s t (by simpa using haff)]
    unfold stageStep
    simp only [addMessage_stage, addMessage_request]
    cases hstage : s.stage with
    | project =>
        rw [hstage] at hOf
        have hreq : s.request = emptyRequest := hOf
        right
        simp [hreq, emptyRequest]
    | amount =>
        rw [hstage] at hOf
        obtain ⟨h1, h2, h3, h4, h5⟩ := hOf
        right
        cases ham : (extract_amount (lowerS t)).1 with
        | some a =>
            by_cases ha0 : a = 0
            · simp [ha0, addMessage]
            · simp [ha0, addMessage, h3, h4]
        | none => simp [addMessage]
    | reason =>
        rw [hstage] at hOf
        obtain ⟨h1, h2, h3, h4, h5⟩ := hOf
        right
        by_cases hc : 3 ≤ countTokensL (lowerS t).data
        · simp [hc, addMessage, h5]
        · simp [hc, addMessage]
    | confirm =>
        by_cases hcan : lowerS t = "no" ∨ lowerS t = "cancel"
        · left
          simp [hcan, addMessage]
        · right
          simp [hcan, addMessage]

/-- C3: in every reachable session state the request fields respect the
population order project → amount → reason (amount present implies a
project number, reason present implies an amount), and no turn ever
changes or removes a populated field except by clearing the whole record
(the submission/cancellation reset). -/
theorem c3_fields_ordered_never_regress (s : AppState) (h : Reachable s) :
    ((s.request.amount.isSome = true → s.request.project_number.isSome = true) ∧
     (s.request.reason.isSome = true → s.request.amount.isSome = true)) ∧
    (∀ t : String, (processRequest s t).request = emptyRequest ∨
      ((s.request.project_name.isSome = true →
          (processRequest s t).request.project_name = s.request.project_name) ∧
       (s.request.project_number.isSome = true →
          (processRequest s t).request.project_number = s.request.project_number) ∧
       (s.request.amount.isSome = true →
          (processRequest s t).request.amount = s.request.amount) ∧
       (s.request.currency.isSome = true →
          (processRequest s t).request.currency = s.request.currency) ∧
       (s.request.reason.isSome = true →
          (processRequest s t).request.reason = s.request.reason))) := by
  have hi : StageInvOf s.stage s.request := reachable_stageInv s h
  refine ⟨⟨?_, ?_⟩, fun t => processRequest_frame s hi t⟩
  · intro ha
    cases hstage : s.stage with
    | project =>
        rw [hstage] at hi
        have hreq : s.request = emptyRequest := hi
        rw [hreq] at ha
        simp [emptyRequest] at ha
    | amount =>
        rw [hstage] at hi
        rw [hi.2.2.1] at ha
        simp at ha
    | reason => rw [hstage] at hi; exact hi.2.1
    | confirm => rw [hstage] at hi; exact hi.2.1
  · intro hr
    cases hstage : s.stage with
    | project =>
        rw [hstage] at hi
        have hreq : s.request = emptyRequest := hi
        rw [hreq] at hr
        simp [emptyRequest] at hr
    | amount =>
        rw [hstage] at hi
        rw [hi.2.2.2.2] at hr
        simp at hr
    | reason =>
        rw [hstage] at hi
        rw [hi.2.2.2.2] at hr
        simp at hr
    | confirm => rw [hstage] at hi; exact hi.2.2.1

/-- Witness for C3: the theorem instantiated at the initial state (with an
empty store), the frame part at the utterance `"hello"`. -/
theorem c3_fields_ordered_never_regress_witness :
    (((initState []).request.amount.isSome = true →
        (initState []).request.project_number.isSome = true) ∧
     ((initState []).request.reason.isSome = true →
        (initState []).request.amount.isSome = true)) ∧
    ((processRequest (initState []) "hello").request = emptyRequest ∨
      (((initState []).request.project_name.isSome = true →
          (processRequest (initState []) "hello").request.project_name =
            (initState []).request.project_name) ∧
       ((initState []).request.project_number.isSome = true →
          (processRequest (initState []) "hello").request.project_number =
            (initState []).request.project_number) ∧
       ((initState []).request.amount.isSome = true →
          (processRequest (initState []) "hello").request.amount =
            (initState []).request.amount) ∧
       ((initState []).request.currency.isSome = true →
          (processRequest (initState []) "hello").request.currency =
            (initState []).request.currency) ∧
       ((initState []).request.reason.isSome = true →
          (processRequest (initState []) "hello").request.reason =
            (initState []).request.reason))) := by
  have h := c3_fields_ordered_never_regress (initState []) (Reachable.init [])
  exact ⟨h.1, h.2 "hello"⟩

end ExpenseApp
